import Mathlib

/-
Shallow embedding of the netlist-to-pb_type compiler in
src/v2x/vlog_to_pbtype.py.  Python dictionaries of attributes are
modelled as ordered association lists (first binding wins on lookup,
updates replace in place, new keys are appended — matching CPython
dict semantics), attribute values as strings or integers, and the
fatal conditions (assert / print+exit / uncaught exceptions) as an
explicit error type threaded through Except.
-/

namespace V2X

/-- An attribute value as found in the yosys JSON: a string or an int.
Mirrors the dynamic values flowing through the Python code. -/
inductive MetaValue where
  | s (v : String)
  | i (v : Int)
deriving DecidableEq, Repr

/-- Python str() applied to an attribute value. -/
def vstr : MetaValue → String
  | .s v => v
  | .i v => toString v

/-- Dictionary lookup: first binding for the key.  CPython dict
semantics (keys are unique in dicts the code builds, so "first"
is the binding). -/
def lookupD {β : Type} (d : List (String × β)) (k : String) : Option β :=
  match d with
  | [] => none
  | (k', v) :: rest => if k' = k then some v else lookupD rest k

/-- Dictionary update, CPython semantics: replace the value at the
first occurrence of the key, keeping its position; append otherwise. -/
def setD {β : Type} (d : List (String × β)) (k : String) (v : β) :
    List (String × β) :=
  match d with
  | [] => [(k, v)]
  | (k', v') :: rest =>
    if k' = k then (k', v) :: rest else (k', v') :: setD rest k v

/-- Attribute dictionary: ordered association list keyed by string. -/
abbrev Dict := List (String × MetaValue)

/-- The keys of a dictionary, in insertion order. -/
def keysD {β : Type} (d : List (String × β)) : List String := d.map Prod.fst

/-- Lexicographic strict comparison of character lists: CPython
string `<` compares code points left to right, shorter prefixes
first. -/
def charListLt : List Char → List Char → Bool
  | [], [] => false
  | [], _ :: _ => true
  | _ :: _, [] => false
  | a :: as, b :: bs =>
    if a < b then true else if b < a then false else charListLt as bs

/-- CPython string `<`. -/
def strLtB (a b : String) : Bool := charListLt a.toList b.toList

/-- CPython string `<=` (total order: not b < a). -/
def strLeB (a b : String) : Bool := !(strLtB b a)

/-- CPython str.lower() on the ASCII attribute names used here. -/
def strLower (a : String) : String := String.mk (a.toList.map Char.toLower)

/-- The fatal failure modes of the compiler: every assert, print+exit
and uncaught exception in vlog_to_pbtype.py is mapped to one tag. -/
inductive VErr where
  | UnconnectedInputError (cell pin : String)
  | MultiDriverError (cell pin : String)
  | AttributeConflictError
  | InvalidNamesError
  | NameMatchError
  | TypeMismatchError
  | KeyError
  | GroupingError
  | MultiOutputMuxError
  | RoutingChainError
  | DuplicateMuxInputError
  | ModeMetadataWithoutChildrenError
  | MetadataConflictError (key : String)
  | ScopeViolationError (key : String)
  | PrefixCountMismatchError
deriving DecidableEq, Repr

/-! ## strip_name (vlog_to_pbtype.py lines 141-164)

GENBLOCK_REGEX = "^\x5c$genblock\x5c$.*:[0-9]+\x5c$[0-9]+\x5c[(.*)\x5c]\x5c.\x5c\x5c(.*)"
matched with re.match.  The embedding reproduces the greedy
backtracking semantics: the leading `.*` takes the longest prefix
such that the rest of the pattern matches, and the first capture
group `(.*)` is greedy, i.e. the `].\` separator is taken at its
last possible position.  (`.` is modelled as matching any character;
yosys names contain no newlines.) -/

/-- Parse ":[0-9]+$[0-9]+[" at the head of the character list,
returning the remainder after the opening bracket. -/
def parseColonDigits (cs : List Char) : Option (List Char) :=
  match cs with
  | ':' :: rest =>
    let p1 := rest.span Char.isDigit
    match p1 with
    | (d1, r1) =>
      if d1.isEmpty then none else
      match r1 with
      | '$' :: r2 =>
        let p2 := r2.span Char.isDigit
        match p2 with
        | (d2, r3) =>
          if d2.isEmpty then none else
          match r3 with
          | '[' :: r4 => some r4
          | _ => none
      | _ => none
  | _ => none

/-- Split the tail at the LAST occurrence of the three characters
"].\" (greedy first capture group): returns (group1, group2). -/
def lastSepSplit : List Char → Option (List Char × List Char)
  | [] => none
  | c :: rest =>
    match lastSepSplit rest with
    | some (g1, g2) => some (c :: g1, g2)
    | none =>
      match c, rest with
      | ']', '.' :: '\\' :: r2 => some ([], r2)
      | _, _ => none

/-- Try the pattern suffix ":[0-9]+$[0-9]+[(.*)].\(.*)" at one
starting position. -/
def tryGenblockAt (cs : List Char) : Option (String × String) :=
  match parseColonDigits cs with
  | none => none
  | some r =>
    match lastSepSplit r with
    | none => none
    | some (g1, g2) => some (String.mk g1, String.mk g2)

/-- Greedy leading `.*`: try the longest split first, i.e. start the
suffix pattern as far right as possible. -/
def searchGenblock (t : List Char) : Nat → Option (String × String)
  | 0 => tryGenblockAt t
  | Nat.succ n =>
    match tryGenblockAt (t.drop (n + 1)) with
    | some res => some res
    | none => searchGenblock t n

/-- name.startswith("$genblock$"), the guard of strip_name. -/
def startsWithGenblock (name : String) : Bool :=
  "$genblock$".toList.isPrefixOf name.toList

/-- GENBLOCK_REGEX.match(name): the two capture groups (index, base
name) on success. -/
def genblockMatch (name : String) : Option (String × String) :=
  if startsWithGenblock name then
    let t := name.toList.drop 10
    searchGenblock t t.length
  else none

/-- strip_name (lines 146-164).  `none` models the uncaught
AttributeError raised when GENBLOCK_REGEX does not match a name
that starts with "$genblock$". -/
def stripName (name : String) (includeIndex : Bool) : Option String :=
  if startsWithGenblock name then
    match genblockMatch name with
    | some (index, base) =>
      some (if includeIndex then base ++ "[" ++ index ++ "]" else base)
    | none => none
  else some name

/-! ## The netlist model

The YosysJSON queries the code performs (mod.cells, mod.ports,
mod.cell_conns, mod.net_drivers, mod.net_sinks, mod.cell_attrs,
mod.net_attrs_by_netid, mod.cell_type, yj.module(t).CLASS,
yj.module(t).port_attrs) are tabulated as finite association lists. -/

/-- A module port: (name, width, bits, direction), as the tuples of
mod.ports. -/
structure YPort where
  pname : String
  width : Nat
  bits : List Nat
  dir : String
deriving DecidableEq, Repr

/-- A cell instance together with its attributes and its pin-to-net
connections, as returned by mod.cells / mod.cell_attrs /
mod.cell_conns(cname, "input" | "output"). -/
structure YCell where
  cname : String
  ctype : String
  cattrs : Dict
  inConns : List (String × Nat)
  outConns : List (String × Nat)
deriving DecidableEq, Repr

/-- One module of the design, with its net-level queries tabulated
by net id. -/
structure YModule where
  mname : String
  cells : List YCell
  ports : List YPort
  netDrv : List (Nat × List (String × String))
  netSnk : List (Nat × List (String × String))
  netAttrsById : List (Nat × Dict)
  moduleAttrs : List (String × MetaValue)
deriving DecidableEq, Repr

/-- The design-level queries (YosysJSON): per module type name, its
CLASS attribute and its per-port attribute dictionaries. -/
structure YDesign where
  modClass : List (String × Option String)
  modPortAttrs : List (String × List (String × Dict))
deriving DecidableEq, Repr

/-- mod.net_drivers(net). -/
def netDriversOf (m : YModule) (net : Nat) : List (String × String) :=
  (m.netDrv.lookup net).getD []

/-- mod.net_sinks(net). -/
def netSinksOf (m : YModule) (net : Nat) : List (String × String) :=
  (m.netSnk.lookup net).getD []

/-- mod.cell_type(c): the type of the named cell, None when the name
is not a cell of the module (in particular for None, i.e. the
container boundary, and for the module's own name). -/
def cellTypeOf (m : YModule) (c : Option String) : Option String :=
  match c with
  | none => none
  | some cn => (m.cells.find? (fun cell => cell.cname == cn)).map YCell.ctype

/-- yj.module(t).port_attrs(pin), empty when unknown. -/
def portAttrsOf (yj : YDesign) (mtype : String) (pin : String) : Dict :=
  match yj.modPortAttrs.lookup mtype with
  | none => []
  | some l => (lookupD l pin).getD []

/-- yj.module(t).CLASS. -/
def classOf (yj : YDesign) (t : String) : Option String :=
  (yj.modClass.lookup t).getD none

/-! ## copy_attrs and net_and_pin_attrs (lines 353-405) -/

/-- filter_src: drop the "src" key. -/
def filterSrc (d : Dict) : Dict := d.filter (fun kv => kv.1 != "src")

/-- The attribute names present on ALL of the srcs dictionaries
(`all_have` of copy_attrs, lines 355-359).  The Python iterates over
set(sum(...)), whose order is unspecified; the embedding fixes the
order to the deduplicated concatenation of the key lists — which
keys are copied and whether a conflict arises do not depend on it. -/
def allHaveKeys (srcs : List Dict) : List String :=
  ((srcs.map keysD).flatten.dedup).filter
    (fun k => srcs.all (fun s => (lookupD s k).isSome))

/-- One iteration of the copy loop of copy_attrs (lines 361-377) for
attribute k: check the value is identical across all srcs, check it
does not contradict an existing dst value, then store it.
AttributeConflictError models the raised ValueError. -/
def copyStep (s0 : Dict) (rest : List Dict) (d : Dict) (k : String) :
    Except VErr Dict :=
  if ∀ s ∈ rest, lookupD s k = lookupD s0 k then
    if lookupD d k = none ∨ lookupD d k = lookupD s0 k then
      match lookupD s0 k with
      | some v => .ok (setD d k v)
      | none => .ok d
    else .error .AttributeConflictError
  else .error .AttributeConflictError

/-- copy_attrs (lines 353-377): copy into dst every attribute present
on all srcs dictionaries, requiring one identical value across the
srcs and consistency with any value dst already holds. -/
def copyAttrs (dst : Dict) (srcs : List Dict) : Except VErr Dict :=
  match srcs with
  | [] => .ok dst
  | s0 :: rest => (allHaveKeys (s0 :: rest)).foldlM (copyStep s0 rest) dst

/-- A pin: (owning cell name or None for the container boundary,
pin name). -/
abbrev CellPin := Option String × String

/-- The potential_attrs list of net_and_pin_attrs (lines 389-401):
the filtered port attribute dicts of the driver pin and the sink
pin, included only when the pin belongs to a cell with a type. -/
def portSources (yj : YDesign) (m : YModule) (driver sink : CellPin) :
    List Dict :=
  (match cellTypeOf m driver.1 with
   | some t => [filterSrc (portAttrsOf yj t driver.2)]
   | none => []) ++
  (match cellTypeOf m sink.1 with
   | some t => [filterSrc (portAttrsOf yj t sink.2)]
   | none => [])

/-- The filtered net-level attributes of a net id (line 403). -/
def netAttrsOf (m : YModule) (netid : Nat) : Dict :=
  filterSrc ((m.netAttrsById.lookup netid).getD [])

/-- net_and_pin_attrs (lines 380-405). -/
def netAndPinAttrs (yj : YDesign) (m : YModule) (driver sink : CellPin)
    (netid : Nat) : Except VErr Dict :=
  copyAttrs (netAttrsOf m netid) (portSources yj m driver sink)

/-! ## get_interconnects (lines 468-566) -/

/-- One sink entry of an interconnect edge list: (sink pin, edge
attributes). -/
abbrev SinkEntry := CellPin × Dict

/-- The interconnect dictionary: driver pin to ordered sink list
(defaultdict(list), insertion ordered). -/
abbrev IcList := List (CellPin × List SinkEntry)

/-- defaultdict(list) append: extend the list at the key, creating
the key at the end on first touch. -/
def appendIc (d : IcList) (k : CellPin) (v : SinkEntry) : IcList :=
  match d with
  | [] => [(k, [v])]
  | (k', l) :: rest =>
    if k' = k then (k', l ++ [v]) :: rest else (k', l) :: appendIc rest k v

/-- The body of the input-connection loop of get_interconnects
(lines 486-508) for one (pin, net) pair of cell `cellName`: require
exactly one driver on the net, compute the edge attributes, validate
the driver name and emit the edge (driver pin to sink pin). -/
def processInputConn (yj : YDesign) (m : YModule) (modPname : String)
    (validNames : List String) (pbName : Option String) (cellName : String)
    (pin : String) (net : Nat) :
    Except VErr (List (CellPin × SinkEntry)) := do
  let drvs := netDriversOf m net
  if drvs.length = 0 then
    Except.error (VErr.UnconnectedInputError cellName pin)
  else if 2 ≤ drvs.length then
    Except.error (VErr.MultiDriverError cellName pin)
  else
    drvs.foldlM (fun acc dp => do
      let na ← netAndPinAttrs yj m (some dp.1, dp.2) (pbName, pin) net
      match stripName dp.1 true with
      | none => Except.error VErr.NameMatchError
      | some dn =>
        if dn ∈ validNames then
          pure (acc ++
            [((if dn = modPname then none else some dn, dp.2),
              ((pbName, pin), na))])
        else Except.error VErr.InvalidNamesError) []

/-- The body of the output-connection loop of get_interconnects
(lines 512-521) for one (pin, net) pair: record only sinks that
terminate at the current container's own boundary. -/
def processOutputConn (yj : YDesign) (m : YModule) (pbName : Option String)
    (pin : String) (net : Nat) :
    Except VErr (List (CellPin × SinkEntry)) :=
  (netSinksOf m net).foldlM (fun acc sp =>
    if sp.1 = m.mname then do
      let na ← netAndPinAttrs yj m (pbName, pin) (none, sp.2) net
      pure (acc ++ [((pbName, pin), ((none, sp.2), na))])
    else pure acc) []

/-- The per-cell body of get_interconnects (lines 478-521). -/
def processCell (yj : YDesign) (m : YModule) (modPname : String)
    (validNames : List String) (cell : YCell) :
    Except VErr (List (CellPin × SinkEntry)) := do
  match stripName cell.cname true with
  | none => Except.error VErr.NameMatchError
  | some pb0 =>
    if pb0 ∈ validNames then
      let pbName := if pb0 = modPname then none else some pb0
      let ins ← cell.inConns.foldlM (fun acc pc => do
        let es ← processInputConn yj m modPname validNames pbName
          cell.cname pc.1 pc.2
        pure (acc ++ es)) []
      let outs ← cell.outConns.foldlM (fun acc pc => do
        let es ← processOutputConn yj m pbName pc.1 pc.2
        pure (acc ++ es)) []
      pure (ins ++ outs)
    else Except.error VErr.InvalidNamesError

/-- The full bit name of a port bit (lines 531-535 and 541-545):
bare port name for width-1 ports, name[bit] otherwise. -/
def portBitName (p : YPort) (bit : Nat) : String :=
  if p.width = 1 then p.pname else p.pname ++ "[" ++ toString bit ++ "]"

/-- The passthrough pass of get_interconnects (lines 523-551):
matching net ids between an output port bit and an input port bit
yield a boundary-to-boundary edge with empty attributes. -/
def passthroughEdges (m : YModule) : List (CellPin × SinkEntry) :=
  let inPorts := m.ports.filter (fun p => p.dir == "input")
  let outPorts := m.ports.filter (fun p => p.dir == "output")
  outPorts.foldl (fun acc op =>
    op.bits.enum.foldl (fun acc2 ob =>
      inPorts.foldl (fun acc3 ip =>
        ip.bits.enum.foldl (fun acc4 ib =>
          if ob.2 = ib.2 then
            acc4 ++ [((none, portBitName ip ib.1),
                      ((none, portBitName op ob.1), []))]
          else acc4) acc3) acc2) acc) []

/-- The pin_sort key (lines 556-561): boundary pins key as
("", pin name), owned pins as (owner, pin name). -/
def pinSortKey (p : SinkEntry) : String × String :=
  match p.1.1 with
  | none => ("", p.1.2)
  | some c => (c, p.1.2)

/-- Comparison of sink entries by their pin_sort keys, lexicographic
on the (owner, name) pair; Python list.sort(key=pin_sort). -/
def pinKeyLe (a b : SinkEntry) : Bool :=
  strLtB (pinSortKey a).1 (pinSortKey b).1 ||
    ((pinSortKey a).1 == (pinSortKey b).1 &&
     strLeB (pinSortKey a).2 (pinSortKey b).2)

/-- l.sort(key=pin_sort) (lines 563-564): stable sort by the key. -/
def sortSinks (l : List SinkEntry) : List SinkEntry :=
  l.mergeSort pinKeyLe

/-- get_interconnects (lines 468-566): cell connections, boundary
passthrough edges, then the deterministic sink sort per driver. -/
def getInterconnects (yj : YDesign) (m : YModule) (modPname : String)
    (validNames : List String) : Except VErr IcList := do
  let cellEdges ← m.cells.foldlM (fun acc c => do
    let es ← processCell yj m modPname validNames c
    pure (acc ++ es)) []
  let allEdges := cellEdges ++ passthroughEdges m
  let ic := allEdges.foldl (fun d kv => appendIc d kv.1 kv.2) []
  pure (ic.map (fun p => (p.1, sortSinks p.2)))

/-- mode_interconnects (lines 569-586): boundary passthrough between
a mode host's ports and the same-named mode-scoped ports. -/
def modeInterconnects (m : YModule) (modeName : String) : IcList :=
  m.ports.foldl (fun acc p =>
    if p.dir = "input" then
      acc ++ [((none, p.pname), [((some modeName, p.pname), [])])]
    else
      acc ++ [((some modeName, p.pname), [((none, p.pname), [])])]) []

/-! ## get_children and get_list_name_and_length (lines 593-698) -/

/-- A children dictionary: stripped name to (type, member list of
(short name, attributes)). -/
abbrev ChildrenDict := List (String × (String × List (String × Dict)))

/-- Accumulator of get_children: the routing and ordinary children
dictionaries. -/
instance : DecidableEq (String × List (String × Dict)) := inferInstance

instance : DecidableEq (String × (String × List (String × Dict))) :=
  inferInstance

instance : DecidableEq ChildrenDict := inferInstance

structure GCState where
  routing : ChildrenDict
  children : ChildrenDict
deriving DecidableEq, Repr

/-- The per-cell body of get_children (lines 596-615), translated
exactly as written, including its quirks: the membership test
`if cname_prefix not in children` consults the `children` dict even
when the insert goes into `routing` (so a repeated routing key is
reset, and a key present only in `children` raises KeyError when the
cell is routing-classified); the type-homogeneity assert follows. -/
def getChildrenStep (yj : YDesign) (st : GCState) (cell : YCell) :
    Except VErr GCState := do
  let isRouting := classOf yj cell.ctype = some "routing"
  match stripName cell.cname false with
  | none => Except.error VErr.NameMatchError
  | some pref =>
    let d0 := if isRouting then st.routing else st.children
    let d1 := if (lookupD st.children pref).isNone then
        setD d0 pref (cell.ctype, []) else d0
    match lookupD d1 pref with
    | none => Except.error VErr.KeyError
    | some tl =>
      if tl.1 = cell.ctype then
        match stripName cell.cname true with
        | none => Except.error VErr.NameMatchError
        | some sn =>
          let d2 := setD d1 pref (tl.1, tl.2 ++ [(sn, cell.cattrs)])
          if isRouting then pure { st with routing := d2 }
          else pure { st with children := d2 }
      else Except.error VErr.TypeMismatchError

/-- The sort body of get_children (lines 617-621): each group with
more than one member is sorted (stably) by member short name.  NOTE:
in the source the index-contiguity validation call
(get_list_name_and_length) on line 621 is commented out, and the
outer loop `for d in (routing, children)` iterates over
`children.values()` both times, so `children` is sorted twice and
`routing` is never sorted. -/
def sortGroups (ch : ChildrenDict) : ChildrenDict :=
  ch.map (fun e =>
    (e.1, (e.2.1,
      if 1 < e.2.2.length then
        e.2.2.mergeSort (fun a b => strLeB a.1 b.1)
      else e.2.2)))

/-- get_children (lines 593-623). -/
def getChildren (yj : YDesign) (m : YModule) :
    Except VErr (ChildrenDict × ChildrenDict) := do
  let st ← m.cells.foldlM (getChildrenStep yj) ⟨[], []⟩
  pure (st.routing, sortGroups (sortGroups st.children))

/-- The dynamic result type of get_list_name_and_length: the Python
returns True for an empty list and a (name, length) pair otherwise. -/
inductive GLNL where
  | bool (b : Bool)
  | pair (lname : String) (len : Nat)
deriving DecidableEq, Repr

/-- l[0].rfind('['): index of the last opening bracket. -/
def rfindBracket : List Char → Option Nat
  | [] => none
  | c :: rest =>
    match rfindBracket rest with
    | some i => some (i + 1)
    | none => if c = '[' then some 0 else none

/-- The assertion loop of get_list_name_and_length (lines 692-697):
element i of the length-sorted list must be literally name[i].
GroupingError models the AssertionError. -/
def checkIndexed (lname : String) (sl : List String) (start : Nat) :
    Except VErr Unit :=
  match sl with
  | [] => .ok ()
  | x :: rest =>
    if x = lname ++ "[" ++ toString start ++ "]" then
      checkIndexed lname rest (start + 1)
    else .error VErr.GroupingError

/-- get_list_name_and_length (lines 634-698): name of an indexed
group and its length, validating that the members sorted by string
length are exactly name[0] .. name[count-1]. -/
def getListNameAndLength (l : List String) : Except VErr GLNL :=
  match l with
  | [] => .ok (.bool true)
  | x :: _ =>
    match rfindBracket x.toList with
    | none => .error VErr.GroupingError
    | some i =>
      let lname := String.mk (x.toList.take i)
      let sl := l.mergeSort (fun a b => decide (a.length ≤ b.length))
      match checkIndexed lname sl 0 with
      | .ok _ => .ok (.pair lname l.length)
      | .error e => .error e

/-! ## Mux classification (make_container_pb lines 875-918 and
make_mux_conn lines 442-465) -/

/-- The mux_outputs dict of one routing cell (lines 877-881): sink
lists of interconnect entries whose driver cell is the mux, keyed by
driver pin (defaultdict(list) extended in iteration order). -/
def muxOutputs (interconn : IcList) (muxCell : String) :
    List (String × List SinkEntry) :=
  interconn.foldl (fun acc e =>
    match e.1.1 with
    | some c =>
      if c = muxCell then
        match lookupD acc e.1.2 with
        | some l => setD acc e.1.2 (l ++ e.2)
        | none => acc ++ [(e.1.2, e.2)]
      else acc
    | none => acc) []

/-- Classification of one routing cell into a mux (lines 876-918):
the single-output asserts, the routing-chain asserts, and the
duplicate-input assert, translated exactly as written.  The
duplicate check on line 910 tests `sink_pin`, which at that point
still holds the pin name of the mux output's unique sink from the
loop on line 895, NOT the current mux input pin `mux_pin`; the
translation reproduces this (staleSinkPin).  The asserts repeated
inside make_mux_conn (lines 450-452) re-check conditions already
established here.  Returns (mux_inputs, mux_outputs). -/
def makeMuxGroup (interconn : IcList) (routingCells : List String)
    (muxCell : String) :
    Except VErr (List (String × CellPin) × List (String × List SinkEntry)) := do
  let mo := muxOutputs interconn muxCell
  match mo with
  | [(outPin, [sink])] => do
    let _ := outPin
    (match sink.1.1 with
     | some sc =>
       if sc ∈ routingCells then Except.error VErr.RoutingChainError else pure ()
     | none => pure ())
    let staleSinkPin := sink.1.2
    let mi ← interconn.foldlM
      (fun (acc : List (String × CellPin)) e =>
        e.2.foldlM (fun acc2 s =>
          match s.1.1 with
          | some sc =>
            if sc = muxCell then do
              (match e.1.1 with
               | some dc =>
                 if dc ∈ routingCells then Except.error VErr.RoutingChainError
                 else pure ()
               | none => pure ())
              if (lookupD acc2 staleSinkPin).isSome then
                Except.error VErr.DuplicateMuxInputError
              else pure (setD acc2 s.1.2 e.1)
            else pure acc2
          | none => pure acc2) acc) []
    pure (mi, mo)
  | _ =>
    -- len(mux_outputs) != 1, or its only sink list is not a
    -- singleton: both asserts report the multiple-outputs error.
    Except.error VErr.MultiOutputMuxError

/-! ## Metadata (lines 173-314 and the mode loop of make_pb_type) -/

/-- The KNOWN_FASM_ATTRS tuple (lines 181-183). -/
def knownFasmAttrs : List String :=
  ["FASM_PREFIX", "FASM_FEATURES", "FASM_PARAMS"]

/-- A character admitted by the mode-name character class
[A-Z0-9_]. -/
def isModeChar (c : Char) : Bool := c.isUpper || c.isDigit || c = '_'

/-- parse_fasm_attribute (lines 173-198): (None, None) for a
non-FASM attribute, (name, None) for a bare FASM attribute,
(name, mode) for a mode-qualified one.  The regex
"^(FASM_PREFIX|FASM_FEATURES|FASM_PARAMS)_([A-Z0-9_]+)" is matched
with re.match; no alternative is a prefix of another, so at most one
can apply, and the greedy capture takes the maximal run of mode
characters (the regex has no end anchor, so trailing garbage after
that run is accepted). -/
def parseFasmAttribute (a : String) : Option String × Option String :=
  if a ∈ knownFasmAttrs then (some a, none)
  else
    match knownFasmAttrs.findSome? (fun k =>
      if (k.toList ++ ['_']).isPrefixOf a.toList then
        let modeChars :=
          (a.toList.drop (k.toList.length + 1)).takeWhile isModeChar
        if modeChars.isEmpty then none else some (k, String.mk modeChars)
      else none) with
    | some km => (some km.1, some km.2)
    | none => (none, none)

/-- The loop body of metadata_from_attributes (lines 209-221): parse
the attribute name, filter out non-FASM attributes and (when a mode
is given) attributes whose mode qualifier differs, and store the
value under the lower-cased base name. -/
def mfaStep (mode : Option String) (md : Dict) (kv : String × MetaValue) :
    Dict :=
  match parseFasmAttribute kv.1 with
  | (none, _) => md
  | (some attrName, attrMode) =>
    match mode with
    | some mname =>
      if attrMode = some mname then setD md (strLower attrName) kv.2 else md
    | none => setD md (strLower attrName) kv.2

/-- metadata_from_attributes (lines 201-223): collect FASM
attributes into a dict keyed by the lower-cased base name, keeping
only those whose mode qualifier matches when a mode is given. -/
def metadataFromAttributes (attrs : List (String × MetaValue))
    (mode : Option String) : Dict :=
  attrs.foldl (mfaStep mode) []

/-- update_metadata (lines 259-288): merge new_metadata into
metadata; keys listed in concatenate_keys are string-appended with a
space separator, any other key already present must carry an equal
value (MetadataConflictError models the print+exit(-1)). -/
def updateMetadata (metadata newMetadata : Dict)
    (concatKeys : List String) : Except VErr Dict :=
  newMetadata.foldlM (fun md kv =>
    match lookupD md kv.1 with
    | none => .ok (setD md kv.1 kv.2)
    | some old =>
      if kv.1 ∈ concatKeys then
        .ok (setD md kv.1 (.s (vstr old ++ " " ++ vstr kv.2)))
      else if old = kv.2 then .ok md
      else .error (VErr.MetadataConflictError kv.1)) metadata

/-- sanity_check_child_metadata (lines 291-301): keys not allowed on
a module instance.  ScopeViolationError models the print+exit(-1). -/
def sanityCheckChildMetadata (metadata : Dict) : Except VErr Unit :=
  (keysD metadata).foldlM (fun _ k =>
    if k = "fasm_params" ∨ k = "fasm_lut" then
      .error (VErr.ScopeViolationError k)
    else .ok ()) ()

/-- sanity_check_parent_metadata (lines 304-314): keys not allowed
on a module definition. -/
def sanityCheckParentMetadata (metadata : Dict) : Except VErr Unit :=
  (keysD metadata).foldlM (fun _ k =>
    if k = "fasm_prefix" then .error (VErr.ScopeViolationError k)
    else .ok ()) ()

/-- The per-mode body of the MODES loop of make_pb_type (lines
1091-1143): when the mode-scoped re-elaboration has no cells, only
the boundary interconnect of the mode module is produced (no child
pb_type, Bool result false) and any metadata scoped to the mode is
fatal; otherwise the builder recurses (Bool result true) and the
host-to-mode passthrough interconnect is produced. -/
def processMode (yj : YDesign) (hostMod modeMod : YModule) (smode : String) :
    Except VErr (Bool × IcList) :=
  if modeMod.cells.length = 0 then do
    let inter ← getInterconnects yj modeMod smode [smode]
    let modeMetadata := metadataFromAttributes modeMod.moduleAttrs (some smode)
    if modeMetadata.length ≠ 0 then Except.error VErr.ModeMetadataWithoutChildrenError
    else pure (false, inter)
  else
    pure (true, modeInterconnects hostMod smode)

/-! ## Concrete netlist instances used by the example theorems -/

/-- A cell with no attributes and no connections. -/
def exCell (n t : String) : YCell := ⟨n, t, [], [], []⟩

/-- A design declaring one ordinary (non-routing) type T. -/
def exDesignT : YDesign := ⟨[("T", none)], []⟩

/-- The raw name of generate-block element i of instance a. -/
def exGenName (i : String) : String :=
  "$genblock$f.v:1$1[" ++ i ++ "].\\a"

/-- A module with two generate-expanded instances of type T whose
short names are a[0] and a[2] — an index gap. -/
def exModGap : YModule :=
  ⟨"M", [exCell (exGenName "0") "T", exCell (exGenName "2") "T"],
    [], [], [], [], []⟩

/-- A design where type DT declares attribute k="a" on port o and
type ST declares no attributes on port i. -/
def exDesignAttr : YDesign :=
  ⟨[], [("DT", [("o", [("k", .s "a")])]), ("ST", [("i", [])])]⟩

/-- A module with a driver cell d of type DT and a sink cell s of
type ST; net 1 carries no attributes. -/
def exModPins : YModule :=
  ⟨"M", [exCell "d" "DT", exCell "s" "ST"], [], [], [], [(1, [])], []⟩

/-- Same module, but net 1 carries k="b", differing from the driver
port's k="a". -/
def exModPinsB : YModule :=
  ⟨"M", [exCell "d" "DT", exCell "s" "ST"], [], [], [],
    [(1, [("k", .s "b")])], []⟩

/-- An interconnect where drivers l0.o and l1.o both feed the same
mux input pin m.I0, and the mux output m.O drives the boundary pin
out. -/
def exMuxIc : IcList :=
  [((some "l0", "o"), [((some "m", "I0"), [])]),
   ((some "l1", "o"), [((some "m", "I0"), [])]),
   ((some "m", "O"), [((none, "out"), [])])]

/-- A re-elaborated mode module with no cells, one input and one
output port on distinct nets, and a metadata attribute scoped to
mode A. -/
def exModeMeta : YModule :=
  ⟨"A", [], [⟨"i", 1, [1], "input"⟩, ⟨"o", 1, [2], "output"⟩],
    [], [], [], [("FASM_FEATURES_A", .s "f")]⟩

/-- The same mode module without the metadata attribute; its output
bit shares net 1 with the input bit, giving one passthrough edge. -/
def exModeClean : YModule :=
  ⟨"A", [], [⟨"i", 1, [1], "input"⟩, ⟨"o", 1, [1], "output"⟩],
    [], [], [], []⟩

/-- A module whose cell u0 has input pin di on net 5 with no
driver. -/
def exModNoDrv : YModule :=
  ⟨"TOP", [⟨"u0", "T", [], [("di", 5)], []⟩], [], [(5, [])], [],
    [(5, [])], []⟩

/-- The same module with exactly one driver (the boundary pin clk)
on net 5. -/
def exModOneDrv : YModule :=
  ⟨"TOP", [⟨"u0", "T", [], [("di", 5)], []⟩], [],
    [(5, [("TOP", "clk")])], [], [(5, [])], []⟩

end V2X

namespace V2X

/-! ## Ground lemmas about the dictionary operations -/

theorem lookupD_eq_none {β : Type} (d : List (String × β)) (k : String) :
    lookupD d k = none ↔ k ∉ keysD d := by
  induction d with
  | nil => simp [lookupD, keysD]
  | cons x r ih =>
    obtain ⟨k1, v1⟩ := x
    simp only [lookupD, keysD, List.map_cons, List.mem_cons]
    by_cases h : k1 = k
    · subst h; simp
    · have h2 : ¬ k = k1 := fun hh => h hh.symm
      simpa [h, h2, keysD] using ih

theorem lookupD_isSome {β : Type} (d : List (String × β)) (k : String) :
    (lookupD d k).isSome = true ↔ k ∈ keysD d := by
  rw [Option.isSome_iff_ne_none]
  exact not_iff_comm.mp (Iff.symm (lookupD_eq_none d k))

theorem lookupD_setD_self {β : Type} (d : List (String × β)) (k : String)
    (v : β) : lookupD (setD d k v) k = some v := by
  induction d with
  | nil => simp [setD, lookupD]
  | cons x r ih =>
    obtain ⟨k1, v1⟩ := x
    by_cases h : k1 = k
    · subst h; simp [setD, lookupD]
    · simp [setD, lookupD, h, ih]

theorem lookupD_setD_ne {β : Type} (d : List (String × β)) {k k' : String}
    (v : β) (h : k' ≠ k) : lookupD (setD d k v) k' = lookupD d k' := by
  have hkk : ¬ k = k' := fun hh => h hh.symm
  induction d with
  | nil => simp [setD, lookupD, hkk]
  | cons x r ih =>
    obtain ⟨k1, v1⟩ := x
    by_cases hx : k1 = k
    · subst hx; simp [setD, lookupD, hkk]
    · by_cases hk : k1 = k'
      · simp [setD, lookupD, hx, hk, h]
      · simp [setD, lookupD, hx, hk, ih]

theorem setD_not_mem {β : Type} {d : List (String × β)} {k : String}
    (v : β) (h : k ∉ keysD d) : setD d k v = d ++ [(k, v)] := by
  induction d with
  | nil => simp [setD]
  | cons x r ih =>
    obtain ⟨k1, v1⟩ := x
    simp only [keysD, List.map_cons, List.mem_cons] at h
    push_neg at h
    have h1 : ¬ k1 = k := fun hh => h.1 hh.symm
    have h2 : k ∉ keysD r := by simpa [keysD] using h.2
    simp [setD, h1, ih h2]

theorem lookupD_append_left {β : Type} {m : List (String × β)}
    (n : List (String × β)) {k : String} (h : k ∈ keysD m) :
    lookupD (m ++ n) k = lookupD m k := by
  induction m with
  | nil => simp [keysD] at h
  | cons x r ih =>
    obtain ⟨k1, v1⟩ := x
    by_cases hx : k1 = k
    · simp [lookupD, hx]
    · simp only [keysD, List.map_cons, List.mem_cons] at h
      rcases h with h | h
      · exact absurd h.symm hx
      · have : k ∈ keysD r := by simpa [keysD] using h
        simp [lookupD, hx, ih this]

theorem lookupD_append_right {β : Type} {m : List (String × β)}
    (n : List (String × β)) {k : String} (h : k ∉ keysD m) :
    lookupD (m ++ n) k = lookupD n k := by
  induction m with
  | nil => simp
  | cons x r ih =>
    obtain ⟨k1, v1⟩ := x
    simp only [keysD, List.map_cons, List.mem_cons] at h
    push_neg at h
    have h1 : ¬ k1 = k := fun hh => h.1 hh.symm
    have h2 : k ∉ keysD r := by simpa [keysD] using h.2
    simp [lookupD, h1, ih h2]

end V2X

namespace V2X

/-- Claim C10: strip_name is the identity on every instance name that
does not start with the literal string "$genblock$", regardless of
the include_index flag. -/
theorem c10_strip_name_identity (name : String) (includeIndex : Bool)
    (h : startsWithGenblock name = false) :
    stripName name includeIndex = some name := by
  simp [stripName, h]

/-- Witness for C10 at a concrete input. -/
theorem c10_strip_name_identity_witness :
    startsWithGenblock "comb" = false ∧
      stripName "comb" false = some "comb" :=
  ⟨by decide, c10_strip_name_identity "comb" false (by decide)⟩

/-! ## Basic facts about the Except monad as used here -/

@[simp]
theorem ebind_ok {α β : Type} (a : α) (f : α → Except VErr β) :
    (Except.ok a >>= f) = f a := rfl

@[simp]
theorem ebind_error {α β : Type} (e : VErr) (f : α → Except VErr β) :
    ((Except.error e : Except VErr α) >>= f) = Except.error e := rfl

@[simp]
theorem epure_def {α : Type} (a : α) :
    (pure a : Except VErr α) = Except.ok a := rfl

theorem except_bind_eq_ok {α β : Type} {x : Except VErr α}
    {f : α → Except VErr β} {b : β} :
    x >>= f = .ok b ↔ ∃ a, x = .ok a ∧ f a = .ok b := by
  cases x <;> simp

/-! ## Claim C9: scope checks on metadata -/

theorem childCheckList_ok (ks : List String) :
    (ks.foldlM (fun _ k =>
        if k = "fasm_params" ∨ k = "fasm_lut" then
          Except.error (VErr.ScopeViolationError k)
        else Except.ok ()) () = Except.ok ())
      ↔ ∀ k ∈ ks, ¬(k = "fasm_params" ∨ k = "fasm_lut") := by
  induction ks with
  | nil => simp
  | cons k r ih =>
    by_cases h : k = "fasm_params" ∨ k = "fasm_lut"
    · refine iff_of_false (by simp [List.foldlM_cons, h]) ?_
      intro hall
      exact hall k (List.mem_cons_self k r) h
    · have h' := h
      push_neg at h'
      simp [List.foldlM_cons, h, ih, h'.1, h'.2]

theorem childCheckList_err (ks : List String)
    (h : ∃ k ∈ ks, k = "fasm_params" ∨ k = "fasm_lut") :
    ∃ k, (k = "fasm_params" ∨ k = "fasm_lut") ∧
      (ks.foldlM (fun _ k =>
        if k = "fasm_params" ∨ k = "fasm_lut" then
          Except.error (VErr.ScopeViolationError k)
        else Except.ok ()) () = Except.error (VErr.ScopeViolationError k)) := by
  induction ks with
  | nil => simp at h
  | cons k r ih =>
    by_cases hk : k = "fasm_params" ∨ k = "fasm_lut"
    · exact ⟨k, hk, by simp [List.foldlM_cons, hk]⟩
    · obtain ⟨k0, hk0, hbad⟩ := h
      rcases List.mem_cons.mp hk0 with rfl | hk0r
      · exact absurd hbad hk
      · obtain ⟨k1, h1, h2⟩ := ih ⟨k0, hk0r, hbad⟩
        exact ⟨k1, h1, by simp [List.foldlM_cons, hk, h2]⟩

theorem parentCheckList_ok (ks : List String) :
    (ks.foldlM (fun _ k =>
        if k = "fasm_prefix" then
          Except.error (VErr.ScopeViolationError k)
        else Except.ok ()) () = Except.ok ())
      ↔ ∀ k ∈ ks, ¬ k = "fasm_prefix" := by
  induction ks with
  | nil => simp
  | cons k r ih =>
    by_cases h : k = "fasm_prefix"
    · simp [List.foldlM_cons, h]
    · simp [List.foldlM_cons, h, ih]

theorem parentCheckList_err (ks : List String)
    (h : ∃ k ∈ ks, k = "fasm_prefix") :
    ks.foldlM (fun _ k =>
        if k = "fasm_prefix" then
          Except.error (VErr.ScopeViolationError k)
        else Except.ok ()) ()
      = Except.error (VErr.ScopeViolationError "fasm_prefix") := by
  induction ks with
  | nil => simp at h
  | cons k r ih =>
    by_cases hk : k = "fasm_prefix"
    · simp [List.foldlM_cons, hk]
    · obtain ⟨k0, hk0, hbad⟩ := h
      rcases List.mem_cons.mp hk0 with rfl | hk0r
      · exact absurd hbad hk
      · simp [List.foldlM_cons, hk, ih ⟨k0, hk0r, hbad⟩]

/-- Claim C9 counterexample: a module-level feature tag
(fasm_features) present at instance scope does NOT fail the
instance-scope sanity check — the check only rejects fasm_params and
fasm_lut, so the claim that any module-only kind (including feature
tags) is fatal at instance scope is false. -/
theorem c9_counterexample :
    sanityCheckChildMetadata [("fasm_features", MetaValue.s "x")]
      = Except.ok () := by rfl

/-- Claim C9 (amended): the instance-scope check fails (with
ScopeViolationError) exactly when a fasm_params or fasm_lut key is
present — feature tags are not checked — and the module-definition
scope check fails exactly when a fasm_prefix key is present. -/
theorem c9_scope_checks (md : Dict) :
    (sanityCheckChildMetadata md = .ok () ↔
      ∀ e ∈ md, e.1 ≠ "fasm_params" ∧ e.1 ≠ "fasm_lut")
    ∧ (sanityCheckParentMetadata md = .ok () ↔
      ∀ e ∈ md, e.1 ≠ "fasm_prefix")
    ∧ ((∃ e ∈ md, e.1 = "fasm_params" ∨ e.1 = "fasm_lut") →
      ∃ k, (k = "fasm_params" ∨ k = "fasm_lut") ∧
        sanityCheckChildMetadata md = .error (VErr.ScopeViolationError k))
    ∧ ((∃ e ∈ md, e.1 = "fasm_prefix") →
      sanityCheckParentMetadata md
        = .error (VErr.ScopeViolationError "fasm_prefix")) := by
  refine ⟨?_, ?_, ?_, ?_⟩
  · rw [sanityCheckChildMetadata, childCheckList_ok]
    constructor
    · intro h e he
      have := h e.1 (List.mem_map_of_mem Prod.fst he)
      exact ⟨fun hh => this (Or.inl hh), fun hh => this (Or.inr hh)⟩
    · intro h k hk
      obtain ⟨e, he, rfl⟩ := List.mem_map.mp hk
      intro hbad
      rcases hbad with hh | hh
      · exact (h e he).1 hh
      · exact (h e he).2 hh
  · rw [sanityCheckParentMetadata, parentCheckList_ok]
    constructor
    · intro h e he
      exact h e.1 (List.mem_map_of_mem Prod.fst he)
    · intro h k hk
      obtain ⟨e, he, rfl⟩ := List.mem_map.mp hk
      exact h e he
  · intro ⟨e, he, hbad⟩
    exact childCheckList_err (keysD md)
      ⟨e.1, List.mem_map_of_mem Prod.fst he, hbad⟩
  · intro ⟨e, he, hbad⟩
    exact parentCheckList_err (keysD md)
      ⟨e.1, List.mem_map_of_mem Prod.fst he, hbad⟩

/-! ## Claim C8: update_metadata merge policy -/

theorem updateMetadata_not_ok {ck : List String} {k : String}
    {v w : MetaValue} (hck : k ∉ ck) (hne : v ≠ w) :
    ∀ {n m : Dict}, (keysD n).Nodup → lookupD m k = some v → (k, w) ∈ n →
      ∀ d, updateMetadata m n ck ≠ .ok d := by
  intro n
  induction n with
  | nil => intro m _ _ hin; simp at hin
  | cons x r ih =>
    intro m hn hm hin d hok
    obtain ⟨k1, v1⟩ := x
    have hn' : (keysD r).Nodup := (List.nodup_cons.mp (by simpa [keysD] using hn)).2
    rcases List.mem_cons.mp hin with heq | hr
    · obtain ⟨hk, hv⟩ := Prod.mk.injEq _ _ _ _ ▸ heq
      subst hk; subst hv
      simp [updateMetadata, List.foldlM_cons, hm, hck, hne] at hok
    · have hk1 : k1 ≠ k := by
        intro hh
        subst hh
        have hmem : k1 ∈ keysD r := List.mem_map_of_mem Prod.fst hr
        exact (List.nodup_cons.mp (by simpa [keysD] using hn)).1 hmem
    -- one step, then apply the induction hypothesis to the new dict
      cases hl : lookupD m k1 with
      | none =>
        have hm' : lookupD (setD m k1 v1) k = some v := by
          rw [lookupD_setD_ne _ _ (Ne.symm hk1)]; exact hm
        refine ih hn' hm' hr d ?_
        simpa [updateMetadata, List.foldlM_cons, hl] using hok
      | some old =>
        by_cases hc : k1 ∈ ck
        · have hm' : lookupD (setD m k1 (.s (vstr old ++ " " ++ vstr v1))) k
              = some v := by
            rw [lookupD_setD_ne _ _ (Ne.symm hk1)]; exact hm
          refine ih hn' hm' hr d ?_
          simpa [updateMetadata, List.foldlM_cons, hl, hc] using hok
        · by_cases he : old = v1
          · refine ih hn' hm hr d ?_
            simpa [updateMetadata, List.foldlM_cons, hl, hc, he] using hok
          · simp [updateMetadata, List.foldlM_cons, hl, hc, he] at hok

theorem updateMetadata_disjoint {ck : List String} :
    ∀ {n m : Dict}, (keysD n).Nodup → (∀ k ∈ keysD n, k ∉ keysD m) →
      updateMetadata m n ck = .ok (m ++ n) := by
  intro n
  induction n with
  | nil => intro m _ _; simp [updateMetadata]
  | cons x r ih =>
    intro m hn hdisj
    obtain ⟨k1, v1⟩ := x
    have hk1m : k1 ∉ keysD m := hdisj k1 (by simp [keysD])
    have hl : lookupD m k1 = none := (lookupD_eq_none m k1).mpr hk1m
    have hset : setD m k1 v1 = m ++ [(k1, v1)] := setD_not_mem v1 hk1m
    have hnodup := List.nodup_cons.mp (show (k1 :: keysD r).Nodup from hn)
    have hd' : ∀ k ∈ keysD r, k ∉ keysD (m ++ [(k1, v1)]) := by
      intro k hk
      have h1 : k ∉ keysD m :=
        hdisj k (show k ∈ k1 :: keysD r from List.mem_cons_of_mem _ hk)
      have h2 : k ≠ k1 := fun hh => hnodup.1 (hh ▸ hk)
      have hkeq : keysD (m ++ [(k1, v1)]) = keysD m ++ [k1] := by
        simp [keysD]
      rw [hkeq]
      intro hmem
      rcases List.mem_append.mp hmem with hA | hB
      · exact h1 hA
      · exact h2 (List.mem_singleton.mp hB)
    have step : updateMetadata m ((k1, v1) :: r) ck
        = updateMetadata (setD m k1 v1) r ck := by
      simp [updateMetadata, List.foldlM_cons, hl]
    rw [step, hset, ih hnodup.2 hd']
    simp

/-- Claim C8: merging metadata appends concatenable keys with a
single space in merge-call order ("p1" then "p2" gives "p1 p2"),
fails with MetadataConflictError when a non-concatenable key is
present on both sides with differing values, and is commutative (as
a key-value mapping) when the two dictionaries have disjoint key
sets. -/
theorem c8_update_metadata :
    (updateMetadata [("k", MetaValue.s "p1")] [("k", MetaValue.s "p2")] ["k"]
      = .ok [("k", MetaValue.s "p1 p2")])
    ∧ (∀ (m n : Dict) (ck : List String) (k : String) (v w : MetaValue),
      (keysD n).Nodup → lookupD m k = some v → (k, w) ∈ n → k ∉ ck →
        v ≠ w → ∀ d, updateMetadata m n ck ≠ .ok d)
    ∧ (∀ (m n : Dict) (ck : List String),
      (keysD m).Nodup → (keysD n).Nodup →
        (∀ k, k ∈ keysD m → k ∉ keysD n) →
        updateMetadata m n ck = .ok (m ++ n)
        ∧ updateMetadata n m ck = .ok (n ++ m)
        ∧ ∀ k, lookupD (m ++ n) k = lookupD (n ++ m) k) := by
  refine ⟨by rfl, ?_, ?_⟩
  · intro m n ck k v w hn hm hin hck hne
    exact updateMetadata_not_ok hck hne hn hm hin
  · intro m n ck hm hn hdisj
    have hdisj' : ∀ k ∈ keysD n, k ∉ keysD m := fun k hk hmk => hdisj k hmk hk
    refine ⟨updateMetadata_disjoint hn hdisj', updateMetadata_disjoint hm hdisj, ?_⟩
    intro k
    by_cases h1 : k ∈ keysD m
    · rw [lookupD_append_left n h1, lookupD_append_right m (hdisj k h1)]
    · by_cases h2 : k ∈ keysD n
      · rw [lookupD_append_right n h1, lookupD_append_left m h2]
      · rw [lookupD_append_right n h1, lookupD_append_right m h2]
        rw [(lookupD_eq_none m k).mpr h1, (lookupD_eq_none n k).mpr h2]

/-- Witness for C8 at concrete inputs. -/
theorem c8_update_metadata_witness :
    (updateMetadata [("a", MetaValue.s "1")] [("a", MetaValue.s "2")] []
      ≠ .ok [])
    ∧ updateMetadata [("a", MetaValue.s "1")] [("b", MetaValue.s "2")] []
      = .ok [("a", MetaValue.s "1"), ("b", MetaValue.s "2")] :=
  ⟨(c8_update_metadata.2.1 [("a", MetaValue.s "1")] [("a", MetaValue.s "2")]
      [] "a" (MetaValue.s "1") (MetaValue.s "2") (by decide) (by decide)
      (by decide) (by decide) (by decide) []),
   ((c8_update_metadata.2.2 [("a", MetaValue.s "1")] [("b", MetaValue.s "2")]
      [] (by decide) (by decide) (by decide)).1)⟩

/-! ## Claim C7: modes without children -/

theorem setD_ne_nil {β : Type} (d : List (String × β)) (k : String) (v : β) :
    setD d k v ≠ [] := by
  cases d with
  | nil => simp [setD]
  | cons x r =>
    simp only [setD]
    split <;> simp

theorem foldl_invariant {α β : Type} {P : β → Prop} {f : β → α → β}
    (l : List α) (hf : ∀ acc x, x ∈ l → P acc → P (f acc x)) (acc : β)
    (hacc : P acc) : P (l.foldl f acc) := by
  induction l generalizing acc with
  | nil => exact hacc
  | cons x r ih =>
    exact ih (fun a y hy => hf a y (List.mem_cons_of_mem _ hy)) _
      (hf acc x (List.mem_cons_self _ _) hacc)

theorem mfa_fold_eq_nil (mname : String) :
    ∀ (attrs : List (String × MetaValue)) (acc : Dict),
      attrs.foldl (mfaStep (some mname)) acc = [] ↔
        acc = [] ∧ ∀ kv ∈ attrs, ¬((parseFasmAttribute kv.1).1.isSome
          ∧ (parseFasmAttribute kv.1).2 = some mname) := by
  intro attrs
  induction attrs with
  | nil => simp
  | cons kv r ih =>
    intro acc
    rcases hp : parseFasmAttribute kv.1 with ⟨p1, p2⟩
    cases p1 with
    | none => simp [List.foldl_cons, mfaStep, hp, ih]
    | some nm =>
      by_cases hm : p2 = some mname
      · subst hm
        refine iff_of_false ?_ ?_
        · intro hfold
          have := ((ih (setD acc (strLower nm) kv.2)).mp
            (by simpa [List.foldl_cons, mfaStep, hp] using hfold)).1
          exact setD_ne_nil acc (strLower nm) kv.2 this
        · intro ⟨_, hall⟩
          exact hall kv (List.mem_cons_self _ _) (by simp [hp])
      · simp [List.foldl_cons, mfaStep, hp, hm, ih]

theorem mfa_eq_nil_iff (attrs : List (String × MetaValue)) (mname : String) :
    metadataFromAttributes attrs (some mname) = [] ↔
      ∀ kv ∈ attrs, ¬((parseFasmAttribute kv.1).1.isSome
        ∧ (parseFasmAttribute kv.1).2 = some mname) := by
  rw [metadataFromAttributes, mfa_fold_eq_nil]
  simp

theorem passthroughEdges_boundary (m : YModule) :
    ∀ e ∈ passthroughEdges m, e.1.1 = none ∧ e.2.1.1 = none := by
  simp only [passthroughEdges]
  refine @foldl_invariant _ _
    (fun d : List (CellPin × SinkEntry) =>
      ∀ e ∈ d, e.1.1 = none ∧ e.2.1.1 = none) _ _ ?_ [] (by simp)
  intro acc op _ hacc
  refine @foldl_invariant _ _
    (fun d : List (CellPin × SinkEntry) =>
      ∀ e ∈ d, e.1.1 = none ∧ e.2.1.1 = none) _ _ ?_ acc hacc
  intro acc2 ob _ hacc2
  refine @foldl_invariant _ _
    (fun d : List (CellPin × SinkEntry) =>
      ∀ e ∈ d, e.1.1 = none ∧ e.2.1.1 = none) _ _ ?_ acc2 hacc2
  intro acc3 ip _ hacc3
  refine @foldl_invariant _ _
    (fun d : List (CellPin × SinkEntry) =>
      ∀ e ∈ d, e.1.1 = none ∧ e.2.1.1 = none) _ _ ?_ acc3 hacc3
  intro acc4 ib _ hacc4 b hb
  by_cases h : ob.2 = ib.2
  · simp only [h, if_pos rfl] at hb
    rcases List.mem_append.mp hb with hA | hB
    · exact hacc4 b hA
    · rw [List.mem_singleton.mp hB]
      exact ⟨rfl, rfl⟩
  · rw [if_neg h] at hb
    exact hacc4 b hb

theorem appendIc_invariant {K : CellPin → Prop} {V : SinkEntry → Prop}
    {d : IcList} {k : CellPin} {v : SinkEntry}
    (hd : ∀ e ∈ d, K e.1 ∧ ∀ s ∈ e.2, V s) (hk : K k) (hv : V v) :
    ∀ e ∈ appendIc d k v, K e.1 ∧ ∀ s ∈ e.2, V s := by
  induction d with
  | nil =>
    intro e he
    simp only [appendIc, List.mem_singleton] at he
    subst he
    exact ⟨hk, by simpa using hv⟩
  | cons x r ih =>
    intro e he
    by_cases h : x.1 = k
    · simp only [appendIc, if_pos h, List.mem_cons] at he
      rcases he with rfl | her
      · refine ⟨(hd x (List.mem_cons_self _ _)).1, ?_⟩
        intro s hs
        rcases List.mem_append.mp hs with hA | hB
        · exact (hd x (List.mem_cons_self _ _)).2 s hA
        · rw [List.mem_singleton.mp hB]; exact hv
      · exact hd e (List.mem_cons_of_mem _ her)
    · simp only [appendIc, if_neg h, List.mem_cons] at he
      rcases he with rfl | her
      · exact hd x (List.mem_cons_self _ _)
      · exact ih (fun e' he' => hd e' (List.mem_cons_of_mem _ he')) e her

theorem sortSinks_mem {s : SinkEntry} {l : List SinkEntry} :
    s ∈ sortSinks l ↔ s ∈ l :=
  (List.mergeSort_perm l pinKeyLe).mem_iff

/-- Claim C7: for a mode whose re-elaboration yields no child cells,
the builder emits no sub-hierarchy (only boundary interconnect edges
whose driver and sinks are all boundary pins), and any metadata
attribute scoped to that mode makes the build fail with
ModeMetadataWithoutChildrenError. -/
theorem c7_mode_without_children (yj : YDesign) (hostMod modeMod : YModule)
    (smode : String) (h : modeMod.cells = []) :
    ((∃ kv ∈ modeMod.moduleAttrs, (parseFasmAttribute kv.1).1.isSome
        ∧ (parseFasmAttribute kv.1).2 = some smode) →
      processMode yj hostMod modeMod smode
        = .error VErr.ModeMetadataWithoutChildrenError)
    ∧ ((∀ kv ∈ modeMod.moduleAttrs, ¬((parseFasmAttribute kv.1).1.isSome
        ∧ (parseFasmAttribute kv.1).2 = some smode)) →
      ∃ inter, processMode yj hostMod modeMod smode = .ok (false, inter)
        ∧ ∀ e ∈ inter, e.1.1 = none ∧ ∀ s ∈ e.2, s.1.1 = none) := by
  have hic : getInterconnects yj modeMod smode [smode]
      = .ok (((passthroughEdges modeMod).foldl
          (fun d kv => appendIc d kv.1 kv.2) []).map
            (fun p => (p.1, sortSinks p.2))) := by
    simp [getInterconnects, h]
  constructor
  · intro ⟨kv, hkv, hcond⟩
    have hne : metadataFromAttributes modeMod.moduleAttrs (some smode) ≠ [] := by
      intro hnil
      exact (mfa_eq_nil_iff _ smode).mp hnil kv hkv hcond
    have hlen : (metadataFromAttributes modeMod.moduleAttrs (some smode)).length
        ≠ 0 := by
      simpa [List.length_eq_zero] using hne
    simp [processMode, h, hic, hlen]
  · intro hall
    have hnil : metadataFromAttributes modeMod.moduleAttrs (some smode) = [] :=
      (mfa_eq_nil_iff _ smode).mpr hall
    refine ⟨((passthroughEdges modeMod).foldl
        (fun d kv => appendIc d kv.1 kv.2) []).map
          (fun p => (p.1, sortSinks p.2)), ?_, ?_⟩
    · simp [processMode, h, hic, hnil]
    · intro e he
      have hbase : ∀ ent ∈ (passthroughEdges modeMod).foldl
          (fun d kv => appendIc d kv.1 kv.2) [],
          ent.1.1 = none ∧ ∀ s ∈ ent.2, s.1.1 = none := by
        refine @foldl_invariant _ _
          (fun d : IcList => ∀ ent ∈ d,
            ent.1.1 = none ∧ ∀ s ∈ ent.2, s.1.1 = none) _ _ ?_ [] (by simp)
        intro acc kv hkv hacc
        exact @appendIc_invariant (fun k => k.1 = none)
          (fun s => s.1.1 = none) acc kv.1 kv.2 hacc
          (passthroughEdges_boundary modeMod kv hkv).1
          (passthroughEdges_boundary modeMod kv hkv).2
      obtain ⟨p, hp, rfl⟩ := List.mem_map.mp he
      refine ⟨(hbase p hp).1, ?_⟩
      intro s hs
      exact (hbase p hp).2 s (sortSinks_mem.mp hs)

/-- Witness for C7 at concrete inputs: mode A of a cell-less module
with a mode-A feature attribute fails; without the attribute it
yields no subtree and one boundary passthrough edge. -/
theorem c7_mode_without_children_witness :
    processMode exDesignT exModGap exModeMeta "A"
      = .error VErr.ModeMetadataWithoutChildrenError
    ∧ ∃ inter, processMode exDesignT exModGap exModeClean "A"
        = .ok (false, inter)
        ∧ ∀ e ∈ inter, e.1.1 = none ∧ ∀ s ∈ e.2, s.1.1 = none :=
  ⟨(c7_mode_without_children exDesignT exModGap exModeMeta "A" rfl).1
     ⟨("FASM_FEATURES_A", MetaValue.s "f"), by simp [exModeMeta], by decide,
       by decide⟩,
   (c7_mode_without_children exDesignT exModGap exModeClean "A" rfl).2
     (by decide)⟩

/-! ## Claim C3: index-contiguity validation of child groups

get_list_name_and_length does reject gaps, duplicates and
non-numeric suffixes, exactly as its doctests show; but the call to
it inside get_children (line 621) is commented out, so the grouping
path accepts a gapped group without any GroupingError. -/

unseal List.merge List.mergeSort

/-- Claim C3, evaluated at the failing input: grouping the two
generate-expanded instances a[0], a[2] SUCCEEDS (the validation call
is commented out in get_children), while get_list_name_and_length —
the validator the claim describes — rejects exactly that member list
and accepts the contiguous a[0], a[1] in index order. -/
theorem c3_grouping_not_validated :
    getChildren exDesignT exModGap
      = .ok ([], [("a", ("T", [("a[0]", []), ("a[2]", [])]))])
    ∧ getListNameAndLength ["a[0]", "a[2]"] = .error VErr.GroupingError
    ∧ getListNameAndLength ["a[0]", "a[1]"] = .ok (.pair "a" 2) := by
  refine ⟨by rfl, by rfl, by rfl⟩

/-! ## Claims C4 and C5: mux classification -/

/-- Claim C4: a classified routing instance has exactly one output
pin with exactly one sink; any other output-pin count or sink count
fails with MultiOutputMuxError. -/
theorem c4_mux_single_output (interconn : IcList)
    (routingCells : List String) (muxCell : String) :
    ((muxOutputs interconn muxCell).length ≠ 1 →
      makeMuxGroup interconn routingCells muxCell
        = .error VErr.MultiOutputMuxError)
    ∧ (∀ op sinks, muxOutputs interconn muxCell = [(op, sinks)] →
      sinks.length ≠ 1 →
      makeMuxGroup interconn routingCells muxCell
        = .error VErr.MultiOutputMuxError)
    ∧ (∀ mi mo, makeMuxGroup interconn routingCells muxCell
        = .ok (mi, mo) →
      mo = muxOutputs interconn muxCell ∧ mo.length = 1
        ∧ ∀ e ∈ mo, e.2.length = 1) := by
  refine ⟨?_, ?_, ?_⟩
  · intro hlen
    rcases hmo : muxOutputs interconn muxCell with _ | ⟨⟨op, sinks⟩, rest⟩
    · simp [makeMuxGroup, hmo]
    · rcases rest with _ | ⟨e2, rest2⟩
      · rw [hmo] at hlen; simp at hlen
      · simp [makeMuxGroup, hmo]
  · intro op sinks hmo hslen
    rcases sinks with _ | ⟨s1, srest⟩
    · simp [makeMuxGroup, hmo]
    · rcases srest with _ | ⟨s2, srest2⟩
      · simp at hslen
      · simp [makeMuxGroup, hmo]
  · intro mi mo hok
    rcases hmo : muxOutputs interconn muxCell with _ | ⟨⟨op, sinks⟩, rest⟩
    · simp [makeMuxGroup, hmo] at hok
    · rcases rest with _ | ⟨e2, rest2⟩
      · rcases sinks with _ | ⟨s1, srest⟩
        · simp [makeMuxGroup, hmo] at hok
        · rcases srest with _ | ⟨s2, srest2⟩
          · simp only [makeMuxGroup, hmo] at hok
            obtain ⟨u, hu, hrest⟩ := except_bind_eq_ok.mp hok
            obtain ⟨mi', hfold, hpure⟩ := except_bind_eq_ok.mp hrest
            simp only [epure_def, Except.ok.injEq, Prod.mk.injEq] at hpure
            refine ⟨?_, ?_, ?_⟩
            · rw [← hpure.2]
            · rw [← hpure.2]; rfl
            · intro e he
              rw [← hpure.2] at he
              rw [List.mem_singleton.mp he]
              rfl
          · simp [makeMuxGroup, hmo] at hok
      · simp [makeMuxGroup, hmo] at hok

/-- Witness for C4 at concrete inputs: a cell that drives nothing is
rejected, and the accepted mux of exMuxIc has one output with one
sink. -/
theorem c4_mux_single_output_witness :
    makeMuxGroup exMuxIc ["m"] "zzz" = .error VErr.MultiOutputMuxError
    ∧ ([("O", [((none, "out"), [])])]
        : List (String × List SinkEntry)).length = 1 :=
  ⟨(c4_mux_single_output exMuxIc ["m"] "zzz").1 (by decide),
   ((c4_mux_single_output exMuxIc ["m"] "m").2.2
      [("I0", (some "l1", "o"))] [("O", [((none, "out"), [])])]
      (by rfl)).2.1⟩

/-- Claim C5, evaluated at the failing input: in exMuxIc the drivers
l0.o and l1.o both feed mux input pin m.I0, yet classification
SUCCEEDS and silently keeps the second driver — no
DuplicateMuxInputError — because the duplicate check of line 910
tests the stale `sink_pin` variable ("out") instead of the current
mux input pin. -/
theorem c5_duplicate_mux_input_not_detected :
    makeMuxGroup exMuxIc ["m"] "m"
      = .ok ([("I0", (some "l1", "o"))], [("O", [((none, "out"), [])])]) := by
  rfl

/-- Witness for C9 at concrete inputs. -/
theorem c9_scope_checks_witness :
    sanityCheckChildMetadata [("other", MetaValue.s "x")] = .ok ()
    ∧ sanityCheckParentMetadata [("fasm_prefix", MetaValue.s "x")]
      = .error (VErr.ScopeViolationError "fasm_prefix") :=
  ⟨(c9_scope_checks [("other", MetaValue.s "x")]).1.mpr (by decide),
   (c9_scope_checks [("fasm_prefix", MetaValue.s "x")]).2.2.2
     ⟨("fasm_prefix", MetaValue.s "x"), by simp, rfl⟩⟩

/-! ## Claim C6: the total order on sinks and its determinism -/

theorem charListLt_irrefl : ∀ l : List Char, charListLt l l = false := by
  intro l
  induction l with
  | nil => rfl
  | cons c r ih => simp [charListLt, ih, lt_irrefl]

theorem charListLt_nil_right : ∀ l : List Char, charListLt l [] = false := by
  intro l
  cases l <;> rfl

theorem charListLt_trans :
    ∀ {a b c : List Char}, charListLt a b = true → charListLt b c = true →
      charListLt a c = true := by
  intro a
  induction a with
  | nil =>
    intro b c hab hbc
    cases b with
    | nil => simp [charListLt] at hab
    | cons y ys =>
      cases c with
      | nil => simp [charListLt] at hbc
      | cons z zs => rfl
  | cons x xs ih =>
    intro b c hab hbc
    cases b with
    | nil => simp [charListLt] at hab
    | cons y ys =>
      cases c with
      | nil => simp [charListLt] at hbc
      | cons z zs =>
        simp only [charListLt] at hab hbc ⊢
        by_cases hxy : x < y
        · by_cases hyz : y < z
          · simp [lt_trans hxy hyz]
          · by_cases hzy : z < y
            · simp [hyz, hzy] at hbc
            · have hyez : y = z := le_antisymm (not_lt.mp hzy) (not_lt.mp hyz)
              subst hyez
              simp [hxy]
        · by_cases hyx : y < x
          · simp [hxy, hyx] at hab
          · have hxey : x = y := le_antisymm (not_lt.mp hyx) (not_lt.mp hxy)
            subst hxey
            simp only [hxy, if_false, lt_irrefl, if_neg] at hab
            by_cases hxz : x < z
            · simp [hxz]
            · by_cases hzx : z < x
              · simp [hxz, hzx] at hbc
              · simp only [hxz, hzx, if_false] at hbc ⊢
                exact ih hab hbc

theorem charListLt_conn :
    ∀ {a b : List Char}, charListLt a b = false → charListLt b a = false →
      a = b := by
  intro a
  induction a with
  | nil =>
    intro b hab _
    cases b with
    | nil => rfl
    | cons y ys => simp [charListLt] at hab
  | cons x xs ih =>
    intro b hab hba
    cases b with
    | nil => simp [charListLt] at hba
    | cons y ys =>
      simp only [charListLt] at hab hba
      by_cases hxy : x < y
      · simp [hxy] at hab
      · by_cases hyx : y < x
        · simp [hyx] at hba
        · have hxey : x = y := le_antisymm (not_lt.mp hyx) (not_lt.mp hxy)
          subst hxey
          simp only [lt_irrefl, if_neg, if_false] at hab hba
          rw [ih hab hba]

theorem strLtB_conn {a b : String} (h1 : strLtB a b = false)
    (h2 : strLtB b a = false) : a = b := by
  have h : a.toList = b.toList := charListLt_conn h1 h2
  cases a with
  | mk da =>
    cases b with
    | mk db =>
      have hd : da = db := by simpa [String.toList] using h
      rw [hd]

theorem charListLt_neg_trans {a b c : List Char}
    (h1 : charListLt b a = false) (h2 : charListLt c b = false) :
    charListLt c a = false := by
  by_contra h
  have hca : charListLt c a = true := by
    cases hx : charListLt c a
    · exact absurd hx h
    · rfl
  cases hbc : charListLt b c with
  | true =>
    have := charListLt_trans hbc hca
    rw [this] at h1
    cases h1
  | false =>
    have hbec : b = c := charListLt_conn hbc h2
    subst hbec
    rw [hca] at h1
    cases h1

theorem pinKeyLe_trans (a b c : SinkEntry) (h1 : pinKeyLe a b = true)
    (h2 : pinKeyLe b c = true) : pinKeyLe a c = true := by
  simp only [pinKeyLe, Bool.or_eq_true, Bool.and_eq_true, beq_iff_eq,
    strLeB, Bool.not_eq_true'] at h1 h2 ⊢
  rcases h1 with h1 | ⟨he1, h1'⟩
  · rcases h2 with h2 | ⟨he2, h2'⟩
    · exact Or.inl (charListLt_trans h1 h2)
    · exact Or.inl (he2 ▸ h1)
  · rcases h2 with h2 | ⟨he2, h2'⟩
    · exact Or.inl (he1 ▸ h2)
    · exact Or.inr ⟨he1.trans he2, charListLt_neg_trans h1' h2'⟩

theorem pinKeyLe_total (a b : SinkEntry) :
    (pinKeyLe a b || pinKeyLe b a) = true := by
  simp only [pinKeyLe, Bool.or_eq_true, Bool.and_eq_true, beq_iff_eq,
    strLeB, Bool.not_eq_true']
  cases h1 : strLtB (pinSortKey a).1 (pinSortKey b).1 with
  | true => exact Or.inl (Or.inl rfl)
  | false =>
    cases h2 : strLtB (pinSortKey b).1 (pinSortKey a).1 with
    | true => exact Or.inr (Or.inl rfl)
    | false =>
      have he : (pinSortKey a).1 = (pinSortKey b).1 := strLtB_conn h1 h2
      cases h3 : strLtB (pinSortKey b).2 (pinSortKey a).2 with
      | false => exact Or.inl (Or.inr ⟨he, rfl⟩)
      | true =>
        refine Or.inr (Or.inr ⟨he.symm, ?_⟩)
        cases h4 : strLtB (pinSortKey a).2 (pinSortKey b).2 with
        | false => rfl
        | true =>
          have := charListLt_trans h3 h4
          rw [charListLt_irrefl] at this
          cases this

/-- Claim C6: each sink list produced by the resolver is sorted by
the total order that puts boundary sinks (owner none) before sinks
owned by a (nonempty-named) child and orders keys lexicographically;
the sort is idempotent, so re-sorting a resolved interconnect is the
identity — resolution is deterministic with respect to ordering. -/
theorem c6_sink_ordering :
    (∀ l : List SinkEntry,
      List.Pairwise (fun a b => pinKeyLe a b = true) (sortSinks l)
      ∧ sortSinks (sortSinks l) = sortSinks l
      ∧ List.Pairwise (fun a b => ∀ c, a.1.1 = some c → c ≠ "" →
          b.1.1 ≠ none) (sortSinks l))
    ∧ (∀ (yj : YDesign) (m : YModule) (modPname : String)
        (validNames : List String) (ic : IcList),
      getInterconnects yj m modPname validNames = .ok ic →
        ic.map (fun e => (e.1, sortSinks e.2)) = ic) := by
  have hsorted : ∀ l : List SinkEntry,
      List.Pairwise (fun a b => pinKeyLe a b = true) (sortSinks l) :=
    fun l => List.sorted_mergeSort
      (fun a b c => pinKeyLe_trans a b c) pinKeyLe_total l
  have hidem : ∀ l : List SinkEntry, sortSinks (sortSinks l) = sortSinks l :=
    fun l => List.mergeSort_of_sorted (hsorted l)
  constructor
  · intro l
    refine ⟨hsorted l, hidem l, ?_⟩
    refine (hsorted l).imp ?_
    intro a b hab c hac hcne hbnone
    simp only [pinKeyLe, pinSortKey, hac, hbnone, Bool.or_eq_true,
      Bool.and_eq_true, beq_iff_eq] at hab
    rcases hab with hlt | ⟨heq, _⟩
    · have h0 : strLtB c "" = false := charListLt_nil_right c.toList
      rw [h0] at hlt
      cases hlt
    · exact hcne heq
  · intro yj m modPname validNames ic hok
    simp only [getInterconnects] at hok
    obtain ⟨cellEdges, hce, hpure⟩ := except_bind_eq_ok.mp hok
    simp only [epure_def, Except.ok.injEq] at hpure
    rw [← hpure, List.map_map]
    have hfe : ((fun e : CellPin × List SinkEntry => (e.1, sortSinks e.2)) ∘
        (fun e : CellPin × List SinkEntry => (e.1, sortSinks e.2)))
        = (fun e : CellPin × List SinkEntry => (e.1, sortSinks e.2)) := by
      funext e
      simp [Function.comp, hidem]
    rw [hfe]

/-! ## Claim C2: edge attribute merging

copy_attrs does NOT build the union of the three attribute sources:
it copies only the keys present on ALL `srcs` dictionaries; a key
present on some but not all port sources is silently dropped and
never conflict-checked. -/

/-- Claim C2 counterexample: with driver port attrs {k:"a"}, sink
port attrs {} and net attrs {}, the accepted edge's attributes are
EMPTY (not the union, which would contain k); and with net attrs
{k:"b"} differing from the driver port's k="a" no
AttributeConflictError is raised — the net value is kept. -/
theorem c2_counterexample :
    netAndPinAttrs exDesignAttr exModPins (some "d", "o") (some "s", "i") 1
      = .ok []
    ∧ lookupD (portAttrsOf exDesignAttr "DT" "o") "k" = some (MetaValue.s "a")
    ∧ netAndPinAttrs exDesignAttr exModPinsB (some "d", "o") (some "s", "i") 1
      = .ok [("k", MetaValue.s "b")] :=
  ⟨by rfl, by rfl, by rfl⟩

theorem copyStep_ok_lookup {s0 : Dict} {rest : List Dict} {d d' : Dict}
    {k : String} (h : copyStep s0 rest d k = .ok d') :
    (∀ k', k' ≠ k → lookupD d' k' = lookupD d k')
    ∧ lookupD d' k = lookupD s0 k := by
  rw [copyStep] at h
  by_cases h1 : ∀ s ∈ rest, lookupD s k = lookupD s0 k
  · rw [if_pos h1] at h
    by_cases h2 : lookupD d k = none ∨ lookupD d k = lookupD s0 k
    · rw [if_pos h2] at h
      cases hs : lookupD s0 k with
      | some v =>
        rw [hs] at h
        have hd' : setD d k v = d' := by injection h
        subst hd'
        exact ⟨fun k' hne => lookupD_setD_ne d v hne,
          by rw [lookupD_setD_self]⟩
      | none =>
        rw [hs] at h
        have hd' : d = d' := by injection h
        subst hd'
        refine ⟨fun _ _ => rfl, ?_⟩
        rcases h2 with h2 | h2
        · exact h2
        · exact h2.trans hs
    · rw [if_neg h2] at h
      exact absurd h (by simp)
  · rw [if_neg h1] at h
    exact absurd h (by simp)

theorem copyStep_ok_cond {s0 : Dict} {rest : List Dict} {d d' : Dict}
    {k : String} (h : copyStep s0 rest d k = .ok d') :
    (∀ s ∈ rest, lookupD s k = lookupD s0 k)
    ∧ (lookupD d k = none ∨ lookupD d k = lookupD s0 k) := by
  rw [copyStep] at h
  by_cases h1 : ∀ s ∈ rest, lookupD s k = lookupD s0 k
  · by_cases h2 : lookupD d k = none ∨ lookupD d k = lookupD s0 k
    · exact ⟨h1, h2⟩
    · rw [if_pos h1, if_neg h2] at h
      exact absurd h (by simp)
  · rw [if_neg h1] at h
    exact absurd h (by simp)

theorem copyStep_ok_of {s0 : Dict} {rest : List Dict} {d : Dict} {k : String}
    (h1 : ∀ s ∈ rest, lookupD s k = lookupD s0 k)
    (h2 : lookupD d k = none ∨ lookupD d k = lookupD s0 k) :
    ∃ d', copyStep s0 rest d k = .ok d' := by
  rw [copyStep, if_pos h1, if_pos h2]
  cases lookupD s0 k with
  | some v => exact ⟨setD d k v, rfl⟩
  | none => exact ⟨d, rfl⟩

theorem copyStep_ok_or_err (s0 : Dict) (rest : List Dict) (d : Dict)
    (k : String) :
    (∃ d', copyStep s0 rest d k = .ok d')
    ∨ copyStep s0 rest d k = .error VErr.AttributeConflictError := by
  rw [copyStep]
  by_cases h1 : ∀ s ∈ rest, lookupD s k = lookupD s0 k
  · by_cases h2 : lookupD d k = none ∨ lookupD d k = lookupD s0 k
    · rw [if_pos h1, if_pos h2]
      cases lookupD s0 k with
      | some v => exact Or.inl ⟨setD d k v, rfl⟩
      | none => exact Or.inl ⟨d, rfl⟩
    · rw [if_pos h1, if_neg h2]
      exact Or.inr rfl
  · rw [if_neg h1]
    exact Or.inr rfl

theorem copyFold_ok_notmem {s0 : Dict} {rest : List Dict} :
    ∀ {ks : List String} {d out : Dict},
      ks.foldlM (copyStep s0 rest) d = .ok out →
      ∀ k, k ∉ ks → lookupD out k = lookupD d k := by
  intro ks
  induction ks with
  | nil =>
    intro d out h k _
    simp only [List.foldlM_nil, epure_def, Except.ok.injEq] at h
    rw [← h]
  | cons k1 kr ih =>
    intro d out h k hk
    rw [List.foldlM_cons] at h
    obtain ⟨d1, hd1, hrest⟩ := except_bind_eq_ok.mp h
    have hne : k ≠ k1 := fun hh => hk (hh ▸ List.mem_cons_self k1 kr)
    rw [ih hrest k (fun hh => hk (List.mem_cons_of_mem _ hh))]
    exact (copyStep_ok_lookup hd1).1 k hne

theorem copyFold_ok_mem {s0 : Dict} {rest : List Dict} :
    ∀ {ks : List String} {d out : Dict}, ks.Nodup →
      ks.foldlM (copyStep s0 rest) d = .ok out →
      ∀ k ∈ ks, lookupD out k = lookupD s0 k := by
  intro ks
  induction ks with
  | nil => intro d out _ _ k hk; simp at hk
  | cons k1 kr ih =>
    intro d out hnd h k hk
    rw [List.foldlM_cons] at h
    obtain ⟨d1, hd1, hrest⟩ := except_bind_eq_ok.mp h
    rcases List.mem_cons.mp hk with rfl | hkr
    · rw [copyFold_ok_notmem hrest k (List.nodup_cons.mp hnd).1]
      exact (copyStep_ok_lookup hd1).2
    · exact ih (List.nodup_cons.mp hnd).2 hrest k hkr

theorem copyFold_ok_cond {s0 : Dict} {rest : List Dict} :
    ∀ {ks : List String} {d out : Dict}, ks.Nodup →
      ks.foldlM (copyStep s0 rest) d = .ok out →
      ∀ k ∈ ks, (∀ s ∈ rest, lookupD s k = lookupD s0 k)
        ∧ (lookupD d k = none ∨ lookupD d k = lookupD s0 k) := by
  intro ks
  induction ks with
  | nil => intro d out _ _ k hk; simp at hk
  | cons k1 kr ih =>
    intro d out hnd h k hk
    rw [List.foldlM_cons] at h
    obtain ⟨d1, hd1, hrest⟩ := except_bind_eq_ok.mp h
    rcases List.mem_cons.mp hk with rfl | hkr
    · exact copyStep_ok_cond hd1
    · have hcond := ih (List.nodup_cons.mp hnd).2 hrest k hkr
      have hne : k ≠ k1 := by
        intro hh
        exact (List.nodup_cons.mp hnd).1 (hh ▸ hkr)
      rw [(copyStep_ok_lookup hd1).1 k hne] at hcond
      exact hcond

theorem copyFold_ok_of {s0 : Dict} {rest : List Dict} :
    ∀ {ks : List String} (d : Dict), ks.Nodup →
      (∀ k ∈ ks, (∀ s ∈ rest, lookupD s k = lookupD s0 k)
        ∧ (lookupD d k = none ∨ lookupD d k = lookupD s0 k)) →
      ∃ out, ks.foldlM (copyStep s0 rest) d = .ok out := by
  intro ks
  induction ks with
  | nil => intro d _ _; exact ⟨d, by simp⟩
  | cons k1 kr ih =>
    intro d hnd hcond
    obtain ⟨d1, hd1⟩ := copyStep_ok_of
      (hcond k1 (List.mem_cons_self k1 kr)).1
      (hcond k1 (List.mem_cons_self k1 kr)).2
    have hcond' : ∀ k ∈ kr, (∀ s ∈ rest, lookupD s k = lookupD s0 k)
        ∧ (lookupD d1 k = none ∨ lookupD d1 k = lookupD s0 k) := by
      intro k hk
      have hne : k ≠ k1 := by
        intro hh
        exact (List.nodup_cons.mp hnd).1 (hh ▸ hk)
      rw [(copyStep_ok_lookup hd1).1 k hne]
      exact hcond k (List.mem_cons_of_mem _ hk)
    obtain ⟨out, hout⟩ := ih d1 (List.nodup_cons.mp hnd).2 hcond'
    exact ⟨out, by rw [List.foldlM_cons, hd1]; simpa using hout⟩

theorem copyFold_ok_or_err (s0 : Dict) (rest : List Dict) :
    ∀ (ks : List String) (d : Dict),
      (∃ out, ks.foldlM (copyStep s0 rest) d = .ok out)
      ∨ ks.foldlM (copyStep s0 rest) d
          = .error VErr.AttributeConflictError := by
  intro ks
  induction ks with
  | nil => intro d; exact Or.inl ⟨d, by simp⟩
  | cons k1 kr ih =>
    intro d
    rcases copyStep_ok_or_err s0 rest d k1 with ⟨d1, hd1⟩ | herr
    · rcases ih d1 with ⟨out, hout⟩ | herr2
      · exact Or.inl ⟨out, by rw [List.foldlM_cons, hd1]; simpa using hout⟩
      · exact Or.inr (by rw [List.foldlM_cons, hd1]; simpa using herr2)
    · exact Or.inr (by rw [List.foldlM_cons, herr]; rfl)

theorem allHaveKeys_nodup (srcs : List Dict) : (allHaveKeys srcs).Nodup :=
  List.Nodup.filter _ (List.nodup_dedup _)

theorem allHaveKeys_nil : allHaveKeys [] = [] := rfl

/-- Claim C2 (amended): the stored edge attributes are the net's
attributes extended with exactly the keys present on ALL of the
declared-port sources, whose single shared value is copied; a key
missing from some port source is dropped without a conflict check;
AttributeConflictError arises exactly from a key common to all port
sources whose values disagree among them or with an existing
net-level value; net-level values always survive into the result. -/
theorem c2_edge_attrs :
    (∀ (dst : Dict) (srcs : List Dict) (d : Dict),
      copyAttrs dst srcs = .ok d →
        (∀ k, k ∉ allHaveKeys srcs → lookupD d k = lookupD dst k)
        ∧ (∀ k, k ∈ allHaveKeys srcs →
            lookupD d k = lookupD (srcs.headD []) k)
        ∧ (∀ k v, lookupD dst k = some v → lookupD d k = some v))
    ∧ (∀ (dst : Dict) (srcs : List Dict),
      (∀ k ∈ allHaveKeys srcs,
        (∀ s ∈ srcs, lookupD s k = lookupD (srcs.headD []) k)
        ∧ (lookupD dst k = none
            ∨ lookupD dst k = lookupD (srcs.headD []) k)) →
      ∃ d, copyAttrs dst srcs = .ok d)
    ∧ (∀ (dst : Dict) (srcs : List Dict) (k : String),
      k ∈ allHaveKeys srcs →
      ((∃ s ∈ srcs, lookupD s k ≠ lookupD (srcs.headD []) k)
        ∨ (lookupD dst k ≠ none
            ∧ lookupD dst k ≠ lookupD (srcs.headD []) k)) →
      copyAttrs dst srcs = .error VErr.AttributeConflictError)
    ∧ (∀ (yj : YDesign) (m : YModule) (driver sink : CellPin) (netid : Nat),
      netAndPinAttrs yj m driver sink netid
        = copyAttrs (netAttrsOf m netid) (portSources yj m driver sink)) := by
  refine ⟨?_, ?_, ?_, fun _ _ _ _ _ => rfl⟩
  · intro dst srcs d h
    cases srcs with
    | nil =>
      rw [copyAttrs] at h
      have hd : dst = d := by injection h
      subst hd
      exact ⟨fun _ _ => rfl, fun k hk => by simp [allHaveKeys_nil] at hk,
        fun _ _ hv => hv⟩
    | cons s0 rest =>
      rw [copyAttrs] at h
      refine ⟨copyFold_ok_notmem h, ?_, ?_⟩
      · intro k hk
        simpa using copyFold_ok_mem (allHaveKeys_nodup (s0 :: rest)) h k hk
      · intro k v hv
        by_cases hk : k ∈ allHaveKeys (s0 :: rest)
        · have hcond :=
            (copyFold_ok_cond (allHaveKeys_nodup (s0 :: rest)) h k hk).2
          rw [copyFold_ok_mem (allHaveKeys_nodup (s0 :: rest)) h k hk]
          rcases hcond with hcond | hcond
          · rw [hv] at hcond; cases hcond
          · rw [← hcond]; exact hv
        · rw [copyFold_ok_notmem h k hk]; exact hv
  · intro dst srcs hcond
    cases srcs with
    | nil => exact ⟨dst, rfl⟩
    | cons s0 rest =>
      rw [copyAttrs]
      refine copyFold_ok_of dst (allHaveKeys_nodup (s0 :: rest)) ?_
      intro k hk
      refine ⟨fun s hs => ?_, ?_⟩
      · have := (hcond k hk).1 s (List.mem_cons_of_mem _ hs)
        simpa using this
      · have := (hcond k hk).2
        simpa using this
  · intro dst srcs k hk hbad
    cases srcs with
    | nil => simp [allHaveKeys_nil] at hk
    | cons s0 rest =>
      rw [copyAttrs]
      rcases copyFold_ok_or_err s0 rest (allHaveKeys (s0 :: rest)) dst with
        ⟨out, hout⟩ | herr
      · exfalso
        have hcond :=
          copyFold_ok_cond (allHaveKeys_nodup (s0 :: rest)) hout k hk
        rcases hbad with ⟨s, hs, hneq⟩ | ⟨hne, hneq⟩
        · rcases List.mem_cons.mp hs with rfl | hsr
          · exact hneq (by simp)
          · exact hneq (by simpa using hcond.1 s hsr)
        · rcases hcond.2 with hc | hc
          · exact hne hc
          · exact hneq (by simpa using hc)
      · exact herr

/-- Witness for C2 at concrete inputs: two port sources carrying
k="a" and k="b" conflict; carrying k="a" on both succeeds. -/
theorem c2_edge_attrs_witness :
    copyAttrs [] [[("k", MetaValue.s "a")], [("k", MetaValue.s "b")]]
      = .error VErr.AttributeConflictError
    ∧ ∃ d, copyAttrs []
        [[("k", MetaValue.s "a")], [("k", MetaValue.s "a")]] = .ok d :=
  ⟨c2_edge_attrs.2.2.1 [] [[("k", MetaValue.s "a")], [("k", MetaValue.s "b")]]
     "k" (by decide)
     (Or.inl ⟨[("k", MetaValue.s "b")], by decide, by decide⟩),
   c2_edge_attrs.2.1 [] [[("k", MetaValue.s "a")], [("k", MetaValue.s "a")]]
     (by decide)⟩

/-! ## Claim C1: exactly one driver per input pin -/

theorem foldAppend_ok {γ δ : Type} (g : γ → Except VErr (List δ)) :
    ∀ (l : List γ) (init out : List δ),
      (l.foldlM (fun acc c => do
        let es ← g c
        pure (acc ++ es)) init) = .ok out →
      ∀ c ∈ l, ∃ es, g c = .ok es := by
  intro l
  induction l with
  | nil => intro init out _ c hc; simp at hc
  | cons x r ih =>
    intro init out h c hc
    rw [List.foldlM_cons] at h
    obtain ⟨a, ha, hrest⟩ := except_bind_eq_ok.mp h
    obtain ⟨es, hes, _⟩ := except_bind_eq_ok.mp ha
    rcases List.mem_cons.mp hc with rfl | hcr
    · exact ⟨es, hes⟩
    · exact ih _ _ hrest c hcr

theorem processInputConn_ok_length {yj : YDesign} {m : YModule}
    {modPname : String} {validNames : List String} {pbName : Option String}
    {cellName pin : String} {net : Nat} {es : List (CellPin × SinkEntry)}
    (h : processInputConn yj m modPname validNames pbName cellName pin net
      = .ok es) :
    (netDriversOf m net).length = 1 := by
  rcases hl : (netDriversOf m net).length with _ | n
  · rw [processInputConn] at h
    simp only [hl] at h
    simp at h
  · rcases n with _ | n2
    · rfl
    · rw [processInputConn] at h
      simp only [hl] at h
      have h2 : 2 ≤ n2 + 1 + 1 := by omega
      simp [h2] at h

theorem processCell_ok_inputs {yj : YDesign} {m : YModule}
    {modPname : String} {validNames : List String} {cell : YCell}
    {out : List (CellPin × SinkEntry)}
    (h : processCell yj m modPname validNames cell = .ok out) :
    ∀ pc ∈ cell.inConns, (netDriversOf m pc.2).length = 1 := by
  intro pc hpc
  rw [processCell] at h
  rcases hs : stripName cell.cname true with _ | pb0
  · rw [hs] at h; exact absurd h (by simp)
  · rw [hs] at h
    dsimp only at h
    by_cases hv : pb0 ∈ validNames
    · rw [if_pos hv] at h
      obtain ⟨ins, hins, _⟩ := except_bind_eq_ok.mp h
      obtain ⟨es, hes⟩ := foldAppend_ok
        (fun pc => processInputConn yj m modPname validNames
          (if pb0 = modPname then none else some pb0) cell.cname pc.1 pc.2)
        cell.inConns [] ins hins pc hpc
      exact processInputConn_ok_length hes
    · rw [if_neg hv] at h
      exact absurd h (by simp)

/-- Claim C1: for a child cell's input pin, resolution demands
exactly one driver on the driving net — zero drivers fail with
UnconnectedInputError, two or more with MultiDriverError, and with
exactly one driver the edge from that driver to the sink pin is
recorded; accordingly, a successful get_interconnects run implies
every input pin of every cell had exactly one driver. -/
theorem c1_single_driver (yj : YDesign) (m : YModule) (modPname : String)
    (validNames : List String) (pbName : Option String)
    (cellName pin : String) (net : Nat) :
    ((netDriversOf m net).length = 0 →
      processInputConn yj m modPname validNames pbName cellName pin net
        = .error (VErr.UnconnectedInputError cellName pin))
    ∧ (2 ≤ (netDriversOf m net).length →
      processInputConn yj m modPname validNames pbName cellName pin net
        = .error (VErr.MultiDriverError cellName pin))
    ∧ (∀ dc dp a dn, netDriversOf m net = [(dc, dp)] →
      netAndPinAttrs yj m (some dc, dp) (pbName, pin) net = .ok a →
      stripName dc true = some dn → dn ∈ validNames →
      processInputConn yj m modPname validNames pbName cellName pin net
        = .ok [((if dn = modPname then none else some dn, dp),
                ((pbName, pin), a))])
    ∧ (∀ ic, getInterconnects yj m modPname validNames = .ok ic →
      ∀ c ∈ m.cells, ∀ pc ∈ c.inConns, (netDriversOf m pc.2).length = 1) := by
  refine ⟨?_, ?_, ?_, ?_⟩
  · intro hlen
    rw [processInputConn]
    simp [hlen]
  · intro hlen
    have hne : (netDriversOf m net).length ≠ 0 := by omega
    rw [processInputConn]
    simp [hne, hlen]
  · intro dc dp a dn hd hna hsn hin
    rw [processInputConn]
    simp [hd, hna, hsn, hin]
  · intro ic hok c hc pc hpc
    simp only [getInterconnects] at hok
    obtain ⟨cellEdges, hce, _⟩ := except_bind_eq_ok.mp hok
    obtain ⟨es, hes⟩ := foldAppend_ok
      (fun c => processCell yj m modPname validNames c) m.cells [] cellEdges
      hce c hc
    exact processCell_ok_inputs hes pc hpc

/-- Witness for C1 at concrete inputs: net 5 of exModNoDrv has no
driver and its input pin fails; in exModOneDrv the unique boundary
driver clk yields the recorded edge. -/
theorem c1_single_driver_witness :
    ((netDriversOf exModNoDrv 5).length = 0
      ∧ processInputConn exDesignT exModNoDrv "TOP" ["u0"] (some "u0")
          "u0" "di" 5
        = .error (VErr.UnconnectedInputError "u0" "di"))
    ∧ (netDriversOf exModOneDrv 5 = [("TOP", "clk")]
      ∧ processInputConn exDesignT exModOneDrv "TOP" ["u0", "TOP"]
          (some "u0") "u0" "di" 5
        = .ok [(((if ("TOP" : String) = "TOP" then none
                    else some "TOP" : Option String), "clk"),
                (((some "u0" : Option String), "di"), ([] : Dict)))]) :=
  ⟨⟨by rfl,
    (c1_single_driver exDesignT exModNoDrv "TOP" ["u0"] (some "u0")
      "u0" "di" 5).1 (by rfl)⟩,
   ⟨by rfl,
    (c1_single_driver exDesignT exModOneDrv "TOP" ["u0", "TOP"]
      (some "u0") "u0" "di" 5).2.2.1 "TOP" "clk" [] "TOP" (by rfl) (by rfl)
      (by rfl) (by decide)⟩⟩

/-- Witness for C6 at a concrete input: a resolved interconnect of
exModOneDrv is unchanged by re-sorting. -/
theorem c6_sink_ordering_witness :
    getInterconnects exDesignT exModOneDrv "TOP" ["u0", "TOP"]
      = .ok [((none, "clk"), [((some "u0", "di"), [])])]
    ∧ ([((none, "clk"), [((some "u0", "di"), [])])] : IcList).map
        (fun e => (e.1, sortSinks e.2))
      = [((none, "clk"), [((some "u0", "di"), [])])] :=
  ⟨by rfl,
   c6_sink_ordering.2 exDesignT exModOneDrv "TOP" ["u0", "TOP"]
     [((none, "clk"), [((some "u0", "di"), [])])] (by rfl)⟩

end V2X
